import Mathlib

/-!
Shallow embedding of the CacheManager cache engine (CacheManager.js) and proofs
of its specified properties.

The embedding translates the class into a pure state-passing model:
the JS `Map` becomes an insertion-ordered association list, `Date.now()` becomes
an explicit `now : Nat` argument to each operation, emitted events are collected
in a log inside the state, and the optional localStorage mirror is omitted
because it never affects the in-memory state of any operation (its writes are
external side effects; `useLocalStorage` defaults to false).
-/

/-- JavaScript values stored in the cache, with the distinguished `null` value:
`get` returns null both on a miss and when the stored value is itself null. -/
inductive JsValue where
  | vnull
  | vnat (n : Nat)
  | vstr (s : String)
deriving DecidableEq

/-- One cached entry, mirroring the object literal built in `set`
(lines 127-132 of CacheManager.js). Timestamps are `Nat` milliseconds. -/
structure CacheEntry where
  value : JsValue
  createdAt : Nat
  lastAccessed : Nat
  expiresAt : Option Nat
deriving DecidableEq

/-- Events emitted through the Emitter, one constructor per `cache:*` event name
of the source (hit, miss, expired, set, delete, clear, evict, error,
factory_error, cleanup). Namespace payloads are omitted (constant per cache). -/
inductive CacheEvent where
  | hit (key : String)
  | miss (key : String)
  | expired (key : String)
  | set (key : String) (size : Nat)
  | delete (key : String)
  | clear (clearedItems : Nat)
  | evict (key : String)
  | error (key : String)
  | factoryError (key : String)
  | cleanup (expiredItems : Nat)
deriving DecidableEq

/-- The configuration record built by the constructor (lines 36-43). -/
structure CacheOptions where
  maxSize : Nat
  ttl : Option Nat
  strategy : String
  useLocalStorage : Bool
  enableMetrics : Bool
deriving DecidableEq

/-- The defaults merged under the caller's options by the object spread in the
constructor (lines 36-43). -/
def defaultOptions : CacheOptions :=
  ⟨100, none, "lru", false, true⟩

/-- The mutable instance state: the entry map, the access-order array, the five
metric counters (lines 46-58), and the log of emitted events (oldest first). -/
structure CacheState where
  cache : List (String × CacheEntry)
  accessOrder : List String
  hits : Nat
  misses : Nat
  sets : Nat
  evictions : Nat
  errors : Nat
  events : List CacheEvent
deriving DecidableEq

/-- The freshly constructed state: empty map, empty access order, zeroed
metrics (constructor lines 45-58). -/
def initState : CacheState :=
  ⟨[], [], 0, 0, 0, 0, 0, []⟩

/-- JS `Map.prototype.get`: first (unique) binding of the key. -/
def mapGet (m : List (String × CacheEntry)) (k : String) : Option CacheEntry :=
  match m with
  | [] => none
  | (k', e) :: rest => if k' = k then some e else mapGet rest k

/-- JS `Map.prototype.set`: overwrite in place keeping the key's original
insertion position, else append at the end. -/
def mapSet (m : List (String × CacheEntry)) (k : String) (e : CacheEntry) :
    List (String × CacheEntry) :=
  match m with
  | [] => [(k, e)]
  | (k', e') :: rest => if k' = k then (k, e) :: rest else (k', e') :: mapSet rest k e

/-- JS `Map.prototype.delete` (the removal part): drop the key's binding. -/
def mapDelete (m : List (String × CacheEntry)) (k : String) :
    List (String × CacheEntry) :=
  m.filter (fun p => p.1 != k)

/-- JS `Map.prototype.has`. -/
def mapHas (m : List (String × CacheEntry)) (k : String) : Bool :=
  (mapGet m k).isSome

/-- JS `Map.prototype.size`. -/
def mapSize (m : List (String × CacheEntry)) : Nat :=
  m.length

/-- The keys of the map in insertion order. -/
def mapKeys (m : List (String × CacheEntry)) : List String :=
  m.map Prod.fst

/-- The JS expression `customTTL || this.options.ttl` (line 125): `null` and
`0` are both falsy, so a zero custom TTL falls through to the cache-wide ttl. -/
def jsOr (a b : Option Nat) : Option Nat :=
  match a with
  | some n => if n = 0 then b else some n
  | none => b

/-- The JS expression `ttl ? now + ttl : null` (line 131): a zero or null ttl
yields no expiry timestamp. -/
def mkExpiresAt (now : Nat) (ttl : Option Nat) : Option Nat :=
  match ttl with
  | some t => if t = 0 then none else some (now + t)
  | none => none

/-- Embeds `_isExpired` (lines 256-258): the JS test
`entry.expiresAt && Date.now() > entry.expiresAt`, where a null (or zero,
hence falsy) `expiresAt` means never expired. -/
def isExpired (e : CacheEntry) (now : Nat) : Bool :=
  match e.expiresAt with
  | some t => t != 0 && decide (t < now)
  | none => false

/-- Embeds `_removeFromAccessOrder` (lines 265-270): `indexOf` plus `splice`
removes the first occurrence of the key, if any. -/
def removeFromAccessOrder (ao : List String) (k : String) : List String :=
  ao.erase k

/-- Embeds `_updateAccessOrder` (lines 260-263): remove the key, then push it
to the tail. -/
def updateAccessOrder (ao : List String) (k : String) : List String :=
  removeFromAccessOrder ao k ++ [k]

/-- Appends one emitted event to the log (the Emitter's `emit`). -/
def emit (s : CacheState) (ev : CacheEvent) : CacheState :=
  { s with events := s.events ++ [ev] }

/-- Embeds `_recordHit` (lines 296-301). -/
def recordHit (o : CacheOptions) (s : CacheState) (k : String) : CacheState :=
  if o.enableMetrics then emit { s with hits := s.hits + 1 } (CacheEvent.hit k) else s

/-- Embeds `_recordMiss` (lines 303-308). -/
def recordMiss (o : CacheOptions) (s : CacheState) (k : String) : CacheState :=
  if o.enableMetrics then emit { s with misses := s.misses + 1 } (CacheEvent.miss k) else s

/-- Stable sort of the map's entries by `createdAt`, modelling
`Array.from(this.cache.entries()).sort((a, b) => a[1].createdAt - b[1].createdAt)`
(lines 282-283). `Array.prototype.sort` is stable, and insertion sort with a
non-strict comparator computes the same (unique) stable result. -/
def sortByCreatedAt (m : List (String × CacheEntry)) : List (String × CacheEntry) :=
  List.insertionSort (fun a b => a.2.createdAt ≤ b.2.createdAt) m

/-- The single entry the configured strategy selects for eviction: the head of
the access order for `lru` (line 278 with `i = 0`), the entry with the smallest
`createdAt` (earliest map position on ties, by stability) for `fifo`
(lines 282-285 with `count = 1`), and nothing for any other strategy string. -/
def strategyVictim (o : CacheOptions) (s : CacheState) : Option String :=
  if o.strategy = "lru" then s.accessOrder.head?
  else if o.strategy = "fifo" then (sortByCreatedAt s.cache).head?.map Prod.fst
  else none

/-- The body of the eviction loop (lines 288-293): delete the key from the map
and the access order, bump `evictions`, and emit an evict event. -/
def evictStep (acc : CacheState) (key : String) : CacheState :=
  { acc with
    cache := mapDelete acc.cache key
    accessOrder := removeFromAccessOrder acc.accessOrder key
    evictions := acc.evictions + 1
    events := acc.events ++ [CacheEvent.evict key] }

/-- Embeds `_evictItems` (lines 272-294): select the victims per strategy, then
run the eviction loop over them. An unrecognized strategy selects nothing. -/
def CacheManager.evictItems (o : CacheOptions) (s : CacheState) (count : Nat) :
    CacheState :=
  let toEvict : List String :=
    if o.strategy = "lru" then s.accessOrder.take (min count s.accessOrder.length)
    else if o.strategy = "fifo" then ((sortByCreatedAt s.cache).take count).map Prod.fst
    else []
  toEvict.foldl evictStep s

/-- Embeds `get` (lines 83-113). The try block cannot throw in this model, so
the catch path (lines 108-112) is unreachable and not represented. Returns the
JS return value (null on miss or expiry) and the updated state. -/
def CacheManager.get (o : CacheOptions) (s : CacheState) (now : Nat) (key : String) :
    JsValue × CacheState :=
  match mapGet s.cache key with
  | none => (JsValue.vnull, recordMiss o s key)
  | some entry =>
    if isExpired entry now then
      let s1 : CacheState :=
        { s with
          cache := mapDelete s.cache key
          accessOrder := removeFromAccessOrder s.accessOrder key }
      (JsValue.vnull, emit (recordMiss o s1 key) (CacheEvent.expired key))
    else
      let entry' : CacheEntry := { entry with lastAccessed := now }
      let s1 : CacheState :=
        { s with
          cache := mapSet s.cache key entry'
          accessOrder := updateAccessOrder s.accessOrder key }
      (entry'.value, recordHit o s1 key)

/-- Embeds `set` (lines 122-157). Builds the entry with `ttl = customTTL ||
options.ttl`, evicts one item first when the map is full and the key is new,
inserts, bumps `sets`, and emits a set event carrying the post-insert size.
The catch path (lines 152-156) is unreachable in this model. -/
def CacheManager.set (o : CacheOptions) (s : CacheState) (now : Nat) (key : String)
    (value : JsValue) (customTTL : Option Nat) : Bool × CacheState :=
  let ttl := jsOr customTTL o.ttl
  let entry : CacheEntry :=
    { value := value, createdAt := now, lastAccessed := now
      expiresAt := mkExpiresAt now ttl }
  let s1 :=
    if mapSize s.cache ≥ o.maxSize ∧ mapHas s.cache key = false
    then CacheManager.evictItems o s 1 else s
  let s2 : CacheState :=
    { s1 with
      cache := mapSet s1.cache key entry
      accessOrder := updateAccessOrder s1.accessOrder key }
  let s3 : CacheState := { s2 with sets := s2.sets + 1 }
  (true, emit s3 (CacheEvent.set key (mapSize s2.cache)))

/-- Embeds `has` (lines 164-167): presence and liveness only — no access-order
update, no metrics, and no removal of an expired entry. -/
def CacheManager.has (s : CacheState) (now : Nat) (key : String) : Bool :=
  match mapGet s.cache key with
  | none => false
  | some entry => !(isExpired entry now)

/-- Embeds `delete` (lines 174-184): remove the binding and its access-order
record when present, emitting a delete event; absent keys return false. -/
def CacheManager.delete (s : CacheState) (key : String) : Bool × CacheState :=
  if mapHas s.cache key then
    let s1 : CacheState :=
      { s with
        cache := mapDelete s.cache key
        accessOrder := removeFromAccessOrder s.accessOrder key }
    (true, emit s1 (CacheEvent.delete key))
  else (false, s)

/-- Embeds `clear` (lines 189-199): captures the size, empties both structures,
and emits a clear event carrying the captured size. Metrics are untouched. -/
def CacheManager.clear (s : CacheState) : CacheState :=
  emit { s with cache := [], accessOrder := [] } (CacheEvent.clear (mapSize s.cache))

/-- The continuation of `getOrSet` (lines 227-242) after `await this.get(key)`
has produced `v`: on null, invoke the factory (outcome given as an `Except`),
then store and return its value, or on failure bump `errors`, emit
`factory_error` and rethrow. The third component counts factory invocations
performed by this continuation (0 or 1). -/
def getOrSetResume (o : CacheOptions) (s : CacheState) (now : Nat) (key : String)
    (v : JsValue) (factory : Except String JsValue) (customTTL : Option Nat) :
    Except String JsValue × CacheState × Nat :=
  if v = JsValue.vnull then
    match factory with
    | Except.ok w =>
      let r := CacheManager.set o s now key w customTTL
      (Except.ok w, r.2, 1)
    | Except.error msg =>
      (Except.error msg,
       emit { s with errors := s.errors + 1 } (CacheEvent.factoryError key), 1)
  else (Except.ok v, s, 0)

/-- Embeds `getOrSet` (lines 227-242): the embedded `get` followed by its
continuation. The factory's outcome is passed as a pure `Except`. -/
def CacheManager.getOrSet (o : CacheOptions) (s : CacheState) (now : Nat)
    (key : String) (factory : Except String JsValue) (customTTL : Option Nat) :
    Except String JsValue × CacheState × Nat :=
  let g := CacheManager.get o s now key
  getOrSetResume o g.2 now key g.1 factory customTTL

/-- Embeds the constructor (lines 34-64): the merged options are stored
verbatim and the storage, access order, and metrics initialized empty. The
constructor body contains no validation of `options.strategy` or any other
option (localStorage loading and the TTL sweep timer have no effect on a fresh
state with `useLocalStorage = false`). -/
def CacheManager.new (opts : CacheOptions) : CacheOptions × CacheState :=
  (opts, initState)

/-- One public operation of the facade, with its `Date.now()` value. -/
inductive CacheOp where
  | get (now : Nat) (key : String)
  | set (now : Nat) (key : String) (value : JsValue) (customTTL : Option Nat)
  | has (now : Nat) (key : String)
  | delete (key : String)
  | clear
  | getOrSet (now : Nat) (key : String) (factory : Except String JsValue)
      (customTTL : Option Nat)

/-- State transition of one public operation (return values discarded). -/
def applyOp (o : CacheOptions) (s : CacheState) : CacheOp → CacheState
  | CacheOp.get now key => (CacheManager.get o s now key).2
  | CacheOp.set now key v ct => (CacheManager.set o s now key v ct).2
  | CacheOp.has _ _ => s
  | CacheOp.delete key => (CacheManager.delete s key).2
  | CacheOp.clear => CacheManager.clear s
  | CacheOp.getOrSet now key f ct => (CacheManager.getOrSet o s now key f ct).2.1

/-- Runs a sequence of public operations from the freshly constructed state. -/
def runOps (o : CacheOptions) (ops : List CacheOp) : CacheState :=
  ops.foldl (applyOp o) initState

/-- A sequence of `set` calls (timestamp, key, value, customTTL), as public
operations. -/
def setCallsToOps (calls : List (Nat × String × JsValue × Option Nat)) : List CacheOp :=
  calls.map (fun c => CacheOp.set c.1 c.2.1 c.2.2.1 c.2.2.2)

/-- Event-loop interleaving of two concurrent `getOrSet` calls for one key.
Each call suspends at `await this.get(key)`; when both calls are issued while
the key is absent, both lookups complete before either caller's factory result
is stored (the factory settles no earlier than a later microtask), so each
caller resumes with null and invokes the factory itself. Returns both callers'
results, the final state, and the total number of factory invocations. -/
def twoConcurrentGetOrSet (o : CacheOptions) (s : CacheState) (now : Nat)
    (key : String) (factory : Except String JsValue) (customTTL : Option Nat) :
    (Except String JsValue × Except String JsValue) × CacheState × Nat :=
  let g1 := CacheManager.get o s now key
  let g2 := CacheManager.get o g1.2 now key
  let r1 := getOrSetResume o g2.2 now key g1.1 factory customTTL
  let r2 := getOrSetResume o r1.2.1 now key g2.1 factory customTTL
  ((r1.1, r2.1), r2.2.1, r1.2.2 + r2.2.2)

/-- The access-order bookkeeping relation between an entry map and an
access-order list: no duplicates on either side, exactly the same key set, and
equal lengths. -/
def InvPair (m : List (String × CacheEntry)) (ao : List String) : Prop :=
  ao.Nodup ∧ (mapKeys m).Nodup ∧
  (∀ k, k ∈ ao ↔ mapHas m k = true) ∧
  ao.length = mapSize m

/-- The access-order bookkeeping invariant of the engine: the access order has
no duplicates, the map's keys have no duplicates, both hold exactly the same
key set, and their lengths agree. -/
def AccessInv (s : CacheState) : Prop :=
  InvPair s.cache s.accessOrder

/-- Options used in the concrete eviction scenarios: capacity 2, recency. -/
def lruOptions2 : CacheOptions :=
  ⟨2, none, "lru", false, true⟩

/-- Options used in the concrete eviction scenarios: capacity 2, insertion order. -/
def fifoOptions2 : CacheOptions :=
  ⟨2, none, "fifo", false, true⟩

/-- Options with an unrecognized strategy string (the header comment's
"size-based") and capacity 1, used for the strategy-validation claims. -/
def sizeStrategyOptions : CacheOptions :=
  ⟨1, none, "size", false, true⟩

/-! ### Lemmas about the embedded JS Map -/

theorem mapGet_mapSet_self (m : List (String × CacheEntry)) (k : String) (e : CacheEntry) :
    mapGet (mapSet m k e) k = some e := by
  induction m with
  | nil => simp [mapSet, mapGet]
  | cons p rest ih =>
    obtain ⟨k', e'⟩ := p
    by_cases h : k' = k
    · subst h
      simp [mapSet, mapGet]
    · simp [mapSet, mapGet, h, ih]

theorem mapGet_mapSet_ne (m : List (String × CacheEntry)) (k : String) (e : CacheEntry)
    (k' : String) (hne : k' ≠ k) : mapGet (mapSet m k e) k' = mapGet m k' := by
  have hne' : ¬ k = k' := fun h => hne h.symm
  induction m with
  | nil => simp [mapSet, mapGet, hne']
  | cons p rest ih =>
    obtain ⟨k0, e0⟩ := p
    by_cases h : k0 = k
    · subst h
      simp [mapSet, mapGet, hne']
    · simp [mapSet, mapGet, h, ih]

theorem mapGet_mapDelete_self (m : List (String × CacheEntry)) (k : String) :
    mapGet (mapDelete m k) k = none := by
  induction m with
  | nil => rfl
  | cons p rest ih =>
    obtain ⟨k0, e0⟩ := p
    by_cases h : k0 = k
    · subst h
      simpa [mapDelete, List.filter_cons] using ih
    · simpa [mapDelete, mapGet, List.filter_cons, h] using ih

theorem mapGet_mapDelete_ne (m : List (String × CacheEntry)) (k k' : String)
    (hne : k' ≠ k) : mapGet (mapDelete m k) k' = mapGet m k' := by
  have hne' : ¬ k = k' := fun h => hne h.symm
  induction m with
  | nil => rfl
  | cons p rest ih =>
    obtain ⟨k0, e0⟩ := p
    by_cases h : k0 = k
    · subst h
      simpa [mapDelete, mapGet, List.filter_cons, hne'] using ih
    · by_cases h' : k0 = k'
      · subst h'
        simp [mapDelete, mapGet, List.filter_cons, h]
      · simpa [mapDelete, mapGet, List.filter_cons, h, h'] using ih

theorem mapHas_mapSet (m : List (String × CacheEntry)) (k : String) (e : CacheEntry)
    (k' : String) : mapHas (mapSet m k e) k' = true ↔ (k' = k ∨ mapHas m k' = true) := by
  by_cases h : k' = k
  · subst h
    simp [mapHas, mapGet_mapSet_self]
  · simp [mapHas, mapGet_mapSet_ne m k e k' h, h]

theorem mapHas_mapDelete (m : List (String × CacheEntry)) (k k' : String) :
    mapHas (mapDelete m k) k' = true ↔ (k' ≠ k ∧ mapHas m k' = true) := by
  by_cases h : k' = k
  · subst h
    simp [mapHas, mapGet_mapDelete_self]
  · simp [mapHas, mapGet_mapDelete_ne m k k' h, h]

theorem mapHas_iff_mem_keys (m : List (String × CacheEntry)) (k : String) :
    mapHas m k = true ↔ k ∈ mapKeys m := by
  induction m with
  | nil => simp [mapHas, mapGet, mapKeys]
  | cons p rest ih =>
    obtain ⟨k0, e0⟩ := p
    by_cases h : k0 = k
    · subst h
      simp [mapHas, mapGet, mapKeys]
    · have h' : ¬ k = k0 := fun hh => h hh.symm
      simpa [mapHas, mapGet, mapKeys, h, h'] using ih

theorem mapHas_of_mem {m : List (String × CacheEntry)} {k : String} {e : CacheEntry}
    (h : (k, e) ∈ m) : mapHas m k = true := by
  induction m with
  | nil => simp at h
  | cons p rest ih =>
    obtain ⟨k0, e0⟩ := p
    rcases List.mem_cons.mp h with h1 | h1
    · injection h1 with hk he
      subst hk
      simp [mapHas, mapGet]
    · by_cases hk : k0 = k
      · subst hk
        simp [mapHas, mapGet]
      · simpa [mapHas, mapGet, hk] using ih h1

theorem length_mapSet_of_has (m : List (String × CacheEntry)) (k : String) (e : CacheEntry)
    (h : mapHas m k = true) : (mapSet m k e).length = m.length := by
  induction m with
  | nil => simp [mapHas, mapGet] at h
  | cons p rest ih =>
    obtain ⟨k0, e0⟩ := p
    by_cases hk : k0 = k
    · subst hk
      simp [mapSet]
    · simp only [mapHas, mapGet, hk, if_false] at h
      simp [mapSet, hk, ih h]

theorem length_mapSet_of_not_has (m : List (String × CacheEntry)) (k : String) (e : CacheEntry)
    (h : mapHas m k = false) : (mapSet m k e).length = m.length + 1 := by
  induction m with
  | nil => simp [mapSet]
  | cons p rest ih =>
    obtain ⟨k0, e0⟩ := p
    by_cases hk : k0 = k
    · subst hk
      simp [mapHas, mapGet] at h
    · simp only [mapHas, mapGet, hk, if_false] at h
      simp [mapSet, hk, ih h]

theorem mapDelete_of_not_has (m : List (String × CacheEntry)) (k : String)
    (h : mapHas m k = false) : mapDelete m k = m := by
  induction m with
  | nil => rfl
  | cons p rest ih =>
    obtain ⟨k0, e0⟩ := p
    by_cases hk : k0 = k
    · subst hk
      simp [mapHas, mapGet] at h
    · simp only [mapHas, mapGet, hk, if_false] at h
      simp [mapDelete, List.filter_cons, hk, ih h] at ih ⊢
      exact ih h

theorem length_mapDelete_of_has (m : List (String × CacheEntry)) (k : String)
    (hnd : (mapKeys m).Nodup) (h : mapHas m k = true) :
    (mapDelete m k).length + 1 = m.length := by
  induction m with
  | nil => simp [mapHas, mapGet] at h
  | cons p rest ih =>
    obtain ⟨k0, e0⟩ := p
    simp only [mapKeys, List.map_cons, List.nodup_cons] at hnd
    by_cases hk : k0 = k
    · subst hk
      have hrest : mapHas rest k0 = false := by
        rcases hh : mapHas rest k0 with _ | _
        · rfl
        · exact absurd ((mapHas_iff_mem_keys rest k0).mp hh) hnd.1
      have h1 : mapDelete ((k0, e0) :: rest) k0 = mapDelete rest k0 := by
        simp [mapDelete, List.filter_cons]
      rw [h1, mapDelete_of_not_has rest k0 hrest]
      simp
    · simp only [mapHas, mapGet, hk, if_false] at h
      have h2 := ih hnd.2 h
      have h1 : mapDelete ((k0, e0) :: rest) k = (k0, e0) :: mapDelete rest k := by
        simp [mapDelete, List.filter_cons, hk]
      rw [h1]
      simp only [List.length_cons]
      omega

theorem mapKeys_mapSet_of_has (m : List (String × CacheEntry)) (k : String) (e : CacheEntry)
    (h : mapHas m k = true) : mapKeys (mapSet m k e) = mapKeys m := by
  induction m with
  | nil => simp [mapHas, mapGet] at h
  | cons p rest ih =>
    obtain ⟨k0, e0⟩ := p
    by_cases hk : k0 = k
    · subst hk
      simp [mapSet, mapKeys]
    · simp only [mapHas, mapGet, hk, if_false] at h
      simp [mapSet, mapKeys, hk] at ih ⊢
      exact ih h

theorem mapKeys_mapSet_of_not_has (m : List (String × CacheEntry)) (k : String) (e : CacheEntry)
    (h : mapHas m k = false) : mapKeys (mapSet m k e) = mapKeys m ++ [k] := by
  induction m with
  | nil => simp [mapSet, mapKeys]
  | cons p rest ih =>
    obtain ⟨k0, e0⟩ := p
    by_cases hk : k0 = k
    · subst hk
      simp [mapHas, mapGet] at h
    · simp only [mapHas, mapGet, hk, if_false] at h
      simp [mapSet, mapKeys, hk] at ih ⊢
      exact ih h

theorem mapKeys_mapDelete (m : List (String × CacheEntry)) (k : String) :
    mapKeys (mapDelete m k) = (mapKeys m).filter (fun a => a != k) := by
  induction m with
  | nil => rfl
  | cons p rest ih =>
    obtain ⟨k0, e0⟩ := p
    by_cases hk : k0 = k
    · subst hk
      simp [mapDelete, mapKeys, List.filter_cons] at ih ⊢
      exact ih
    · simp [mapDelete, mapKeys, List.filter_cons, hk] at ih ⊢
      exact ih

/-! ### Lemmas about the access-order list -/

theorem mem_updateAccessOrder {ao : List String} (hnd : ao.Nodup) (k x : String) :
    x ∈ updateAccessOrder ao k ↔ (x = k ∨ x ∈ ao) := by
  simp only [updateAccessOrder, removeFromAccessOrder, List.mem_append,
    List.mem_singleton, hnd.mem_erase_iff]
  constructor
  · rintro (⟨hx, hmem⟩ | rfl)
    · exact Or.inr hmem
    · exact Or.inl rfl
  · rintro (rfl | hmem)
    · exact Or.inr rfl
    · by_cases hx : x = k
      · exact Or.inr hx
      · exact Or.inl ⟨hx, hmem⟩

theorem nodup_updateAccessOrder {ao : List String} (hnd : ao.Nodup) (k : String) :
    (updateAccessOrder ao k).Nodup := by
  refine List.Nodup.append (hnd.erase k) (List.nodup_singleton k) ?_
  intro x hx hk
  rw [List.mem_singleton] at hk
  subst hk
  exact absurd (hnd.mem_erase_iff.mp hx).1 (fun h => h rfl)

theorem length_updateAccessOrder_of_mem {ao : List String} (k : String) (h : k ∈ ao) :
    (updateAccessOrder ao k).length = ao.length := by
  have hpos : 0 < ao.length := List.length_pos_of_mem h
  simp only [updateAccessOrder, removeFromAccessOrder, List.length_append,
    List.length_singleton, List.length_erase_of_mem h]
  omega

theorem length_updateAccessOrder_of_not_mem {ao : List String} (k : String) (h : k ∉ ao) :
    (updateAccessOrder ao k).length = ao.length + 1 := by
  simp [updateAccessOrder, removeFromAccessOrder, List.erase_of_not_mem h]

theorem getLast?_updateAccessOrder (ao : List String) (k : String) :
    (updateAccessOrder ao k).getLast? = some k :=
  List.getLast?_concat _

/-! ### Preservation of the bookkeeping invariant by the primitive updates -/

theorem invPair_nil : InvPair [] [] := by
  refine ⟨List.nodup_nil, List.nodup_nil, ?_, rfl⟩
  intro k
  simp [mapHas, mapGet]

theorem InvPair.insert {m : List (String × CacheEntry)} {ao : List String}
    (h : InvPair m ao) (k : String) (e : CacheEntry) :
    InvPair (mapSet m k e) (updateAccessOrder ao k) := by
  obtain ⟨h1, h2, h3, h4⟩ := h
  refine ⟨nodup_updateAccessOrder h1 k, ?_, ?_, ?_⟩
  · rcases hh : mapHas m k with _ | _
    · rw [mapKeys_mapSet_of_not_has m k e hh]
      refine List.Nodup.append h2 (List.nodup_singleton k) ?_
      intro x hx hk
      rw [List.mem_singleton] at hk
      subst hk
      exact absurd ((mapHas_iff_mem_keys m x).mpr hx) (by simp [hh])
    · rw [mapKeys_mapSet_of_has m k e hh]
      exact h2
  · intro x
    rw [mem_updateAccessOrder h1 k x, mapHas_mapSet m k e x, h3 x]
  · rcases hh : mapHas m k with _ | _
    · have hk : k ∉ ao := fun hmem => by
        have hc := (h3 k).mp hmem
        rw [hh] at hc
        exact Bool.noConfusion hc
      rw [length_updateAccessOrder_of_not_mem k hk]
      simp only [mapSize] at h4 ⊢
      rw [length_mapSet_of_not_has m k e hh, h4]
    · have hk : k ∈ ao := (h3 k).mpr hh
      rw [length_updateAccessOrder_of_mem k hk]
      simp only [mapSize] at h4 ⊢
      rw [length_mapSet_of_has m k e hh, h4]

theorem InvPair.remove {m : List (String × CacheEntry)} {ao : List String}
    (h : InvPair m ao) (k : String) :
    InvPair (mapDelete m k) (removeFromAccessOrder ao k) := by
  obtain ⟨h1, h2, h3, h4⟩ := h
  refine ⟨h1.erase k, ?_, ?_, ?_⟩
  · rw [mapKeys_mapDelete m k]
    exact ((mapKeys m).filter_sublist).nodup h2
  · intro x
    rw [removeFromAccessOrder, h1.mem_erase_iff, mapHas_mapDelete m k x, h3 x]
  · rcases hh : mapHas m k with _ | _
    · have hk : k ∉ ao := fun hmem => by
        have hc := (h3 k).mp hmem
        rw [hh] at hc
        exact Bool.noConfusion hc
      rw [removeFromAccessOrder, List.erase_of_not_mem hk,
        mapDelete_of_not_has m k hh]
      exact h4
    · have hk : k ∈ ao := (h3 k).mpr hh
      have hlen := length_mapDelete_of_has m k h2 hh
      simp only [removeFromAccessOrder, mapSize] at h4 ⊢
      rw [List.length_erase_of_mem hk]
      omega

/-! ### Preservation of the invariant by every public operation -/

theorem accessInv_emit (s : CacheState) (ev : CacheEvent) (h : AccessInv s) :
    AccessInv (emit s ev) := h

theorem accessInv_recordMiss (o : CacheOptions) (s : CacheState) (k : String)
    (h : AccessInv s) : AccessInv (recordMiss o s k) := by
  unfold recordMiss
  split
  · exact h
  · exact h

theorem accessInv_recordHit (o : CacheOptions) (s : CacheState) (k : String)
    (h : AccessInv s) : AccessInv (recordHit o s k) := by
  unfold recordHit
  split
  · exact h
  · exact h

theorem accessInv_evictFold :
    ∀ (keys : List String) (s : CacheState), AccessInv s →
      AccessInv (keys.foldl evictStep s)
  | [], _, h => h
  | k :: ks, s, h => accessInv_evictFold ks (evictStep s k) (InvPair.remove h k)

theorem accessInv_evictItems (o : CacheOptions) (s : CacheState) (n : Nat)
    (h : AccessInv s) : AccessInv (CacheManager.evictItems o s n) :=
  accessInv_evictFold _ s h

theorem accessInv_ite (o : CacheOptions) (s : CacheState) (n : Nat) (c : Prop)
    [Decidable c] (h : AccessInv s) :
    AccessInv (if c then CacheManager.evictItems o s n else s) := by
  split
  · exact accessInv_evictItems o s n h
  · exact h

theorem accessInv_set (o : CacheOptions) (s : CacheState) (now : Nat) (key : String)
    (v : JsValue) (ct : Option Nat) (h : AccessInv s) :
    AccessInv (CacheManager.set o s now key v ct).2 :=
  InvPair.insert
    (accessInv_ite o s 1 (mapSize s.cache ≥ o.maxSize ∧ mapHas s.cache key = false) h)
    key _

theorem accessInv_get (o : CacheOptions) (s : CacheState) (now : Nat) (key : String)
    (h : AccessInv s) : AccessInv (CacheManager.get o s now key).2 := by
  unfold CacheManager.get
  cases hm : mapGet s.cache key with
  | none => exact accessInv_recordMiss o s key h
  | some entry =>
    by_cases he : isExpired entry now = true
    · simp only [he, if_true]
      exact accessInv_emit _ _ (accessInv_recordMiss o _ key (InvPair.remove h key))
    · simp only [he, if_false]
      exact accessInv_recordHit o _ key (InvPair.insert h key _)

theorem accessInv_delete (s : CacheState) (key : String) (h : AccessInv s) :
    AccessInv (CacheManager.delete s key).2 := by
  unfold CacheManager.delete
  split
  · exact accessInv_emit _ _ (InvPair.remove h key)
  · exact h

theorem accessInv_clear (s : CacheState) : AccessInv (CacheManager.clear s) :=
  invPair_nil

theorem accessInv_getOrSetResume (o : CacheOptions) (s : CacheState) (now : Nat)
    (key : String) (v : JsValue) (f : Except String JsValue) (ct : Option Nat)
    (h : AccessInv s) : AccessInv (getOrSetResume o s now key v f ct).2.1 := by
  unfold getOrSetResume
  split
  · cases f with
    | ok w => exact accessInv_set o s now key w ct h
    | error msg => exact accessInv_emit _ _ h
  · exact h

theorem accessInv_getOrSet (o : CacheOptions) (s : CacheState) (now : Nat)
    (key : String) (f : Except String JsValue) (ct : Option Nat)
    (h : AccessInv s) : AccessInv (CacheManager.getOrSet o s now key f ct).2.1 :=
  accessInv_getOrSetResume o _ now key _ f ct (accessInv_get o s now key h)

theorem accessInv_applyOp (o : CacheOptions) (s : CacheState) (op : CacheOp)
    (h : AccessInv s) : AccessInv (applyOp o s op) := by
  cases op with
  | get now key => exact accessInv_get o s now key h
  | set now key v ct => exact accessInv_set o s now key v ct h
  | has _ _ => exact h
  | delete key => exact accessInv_delete s key h
  | clear => exact accessInv_clear s
  | getOrSet now key f ct => exact accessInv_getOrSet o s now key f ct h

theorem accessInv_foldl (o : CacheOptions) :
    ∀ (ops : List CacheOp) (s : CacheState), AccessInv s →
      AccessInv (ops.foldl (applyOp o) s)
  | [], _, h => h
  | op :: rest, s, h => accessInv_foldl o rest (applyOp o s op) (accessInv_applyOp o s op h)

theorem accessInv_initState : AccessInv initState :=
  invPair_nil

theorem accessInv_runOps (o : CacheOptions) (ops : List CacheOp) :
    AccessInv (runOps o ops) :=
  accessInv_foldl o ops initState accessInv_initState

/-! ### Characterization of single-item eviction and the capacity bound -/

theorem mem_sortByCreatedAt {m : List (String × CacheEntry)} {p : String × CacheEntry}
    (h : p ∈ sortByCreatedAt m) : p ∈ m :=
  (List.perm_insertionSort _ m).mem_iff.mp h

theorem length_sortByCreatedAt (m : List (String × CacheEntry)) :
    (sortByCreatedAt m).length = m.length :=
  (List.perm_insertionSort _ m).length_eq

theorem evictItems_one_lru (o : CacheOptions) (s : CacheState) (hs : o.strategy = "lru")
    (k : String) (rest : List String) (hao : s.accessOrder = k :: rest) :
    CacheManager.evictItems o s 1 = evictStep s k := by
  have hmin : min 1 (rest.length + 1) = 1 := by omega
  unfold CacheManager.evictItems
  rw [hs, hao]
  simp [hmin, List.take]

theorem evictItems_one_fifo (o : CacheOptions) (s : CacheState) (hs : o.strategy = "fifo")
    (p : String × CacheEntry) (rest : List (String × CacheEntry))
    (hsort : sortByCreatedAt s.cache = p :: rest) :
    CacheManager.evictItems o s 1 = evictStep s p.1 := by
  unfold CacheManager.evictItems
  rw [hs, hsort]
  simp [List.take]

theorem set_snd_of_evict (o : CacheOptions) (s : CacheState) (now : Nat) (key : String)
    (v : JsValue) (ct : Option Nat)
    (hc : mapSize s.cache ≥ o.maxSize ∧ mapHas s.cache key = false) :
    (CacheManager.set o s now key v ct).2 =
      (let s1 := CacheManager.evictItems o s 1
       let entry : CacheEntry := ⟨v, now, now, mkExpiresAt now (jsOr ct o.ttl)⟩
       { s1 with
         cache := mapSet s1.cache key entry
         accessOrder := updateAccessOrder s1.accessOrder key
         sets := s1.sets + 1
         events := s1.events ++ [CacheEvent.set key (mapSize (mapSet s1.cache key entry))] }) := by
  unfold CacheManager.set
  rw [if_pos hc]
  rfl

theorem set_snd_no_evict (o : CacheOptions) (s : CacheState) (now : Nat) (key : String)
    (v : JsValue) (ct : Option Nat)
    (hc : ¬ (mapSize s.cache ≥ o.maxSize ∧ mapHas s.cache key = false)) :
    (CacheManager.set o s now key v ct).2 =
      (let entry : CacheEntry := ⟨v, now, now, mkExpiresAt now (jsOr ct o.ttl)⟩
       { s with
         cache := mapSet s.cache key entry
         accessOrder := updateAccessOrder s.accessOrder key
         sets := s.sets + 1
         events := s.events ++ [CacheEvent.set key (mapSize (mapSet s.cache key entry))] }) := by
  unfold CacheManager.set
  rw [if_neg hc]
  rfl

theorem mapHas_eq_false_of_not {m : List (String × CacheEntry)} {k : String}
    (h : ¬ mapHas m k = true) : mapHas m k = false := by
  rcases hh : mapHas m k with _ | _
  · rfl
  · exact absurd hh h

theorem exists_victim (o : CacheOptions)
    (hstrat : o.strategy = "lru" ∨ o.strategy = "fifo")
    (s : CacheState) (hinv : AccessInv s) (hpos : 0 < mapSize s.cache) :
    ∃ victim, strategyVictim o s = some victim ∧ mapHas s.cache victim = true ∧
      CacheManager.evictItems o s 1 = evictStep s victim := by
  rcases hstrat with hs | hs
  · obtain ⟨h1, h2, h3, h4⟩ := hinv
    have hlen : 0 < s.accessOrder.length := by
      rw [h4]
      exact hpos
    obtain ⟨k, rest, hao⟩ := List.exists_cons_of_ne_nil (List.ne_nil_of_length_pos hlen)
    refine ⟨k, ?_, ?_, evictItems_one_lru o s hs k rest hao⟩
    · simp [strategyVictim, hs, hao]
    · exact (h3 k).mp (by rw [hao]; exact List.mem_cons_self k rest)
  · have hlen : 0 < (sortByCreatedAt s.cache).length := by
      rw [length_sortByCreatedAt]
      exact hpos
    obtain ⟨p, rest, hsort⟩ := List.exists_cons_of_ne_nil (List.ne_nil_of_length_pos hlen)
    have hmem : p ∈ s.cache := mem_sortByCreatedAt (by rw [hsort]; exact List.mem_cons_self p rest)
    refine ⟨p.1, ?_, ?_, evictItems_one_fifo o s hs p rest hsort⟩
    · simp [strategyVictim, hs, hsort]
    · obtain ⟨k0, e0⟩ := p
      exact mapHas_of_mem hmem

theorem set_evicts_one (o : CacheOptions)
    (hstrat : o.strategy = "lru" ∨ o.strategy = "fifo") (hmax : 1 ≤ o.maxSize)
    (s : CacheState) (hinv : AccessInv s)
    (hfull : mapSize s.cache = o.maxSize) (key : String)
    (hnew : mapHas s.cache key = false) (now : Nat) (v : JsValue) (ct : Option Nat) :
    ∃ victim, strategyVictim o s = some victim ∧ mapHas s.cache victim = true ∧
      (CacheManager.set o s now key v ct).2.evictions = s.evictions + 1 ∧
      mapSize (CacheManager.set o s now key v ct).2.cache = o.maxSize ∧
      mapHas (CacheManager.set o s now key v ct).2.cache victim = false ∧
      (∀ k', mapHas (CacheManager.set o s now key v ct).2.cache k' = true ↔
        (k' = key ∨ (mapHas s.cache k' = true ∧ k' ≠ victim))) := by
  have hpos : 0 < mapSize s.cache := by omega
  obtain ⟨victim, hv, hvhas, hev⟩ := exists_victim o hstrat s hinv hpos
  have hc : mapSize s.cache ≥ o.maxSize ∧ mapHas s.cache key = false := ⟨by omega, hnew⟩
  have hsnd := set_snd_of_evict o s now key v ct hc
  rw [hev] at hsnd
  have hcache : (CacheManager.set o s now key v ct).2.cache =
      mapSet (mapDelete s.cache victim) key
        ⟨v, now, now, mkExpiresAt now (jsOr ct o.ttl)⟩ := by
    rw [hsnd]
    rfl
  have hevi : (CacheManager.set o s now key v ct).2.evictions = s.evictions + 1 := by
    rw [hsnd]
    rfl
  have hvk : victim ≠ key := by
    intro hh
    rw [hh, hnew] at hvhas
    exact Bool.noConfusion hvhas
  have hkeyd : mapHas (mapDelete s.cache victim) key = false := by
    apply mapHas_eq_false_of_not
    intro hh
    have := ((mapHas_mapDelete s.cache victim key).mp hh).2
    rw [hnew] at this
    exact Bool.noConfusion this
  refine ⟨victim, hv, hvhas, hevi, ?_, ?_, ?_⟩
  · have hdel := length_mapDelete_of_has s.cache victim hinv.2.1 hvhas
    have hins := length_mapSet_of_not_has (mapDelete s.cache victim) key
      ⟨v, now, now, mkExpiresAt now (jsOr ct o.ttl)⟩ hkeyd
    rw [hcache]
    simp only [mapSize] at hfull ⊢
    omega
  · rw [hcache]
    apply mapHas_eq_false_of_not
    intro hh
    rcases (mapHas_mapSet _ key _ victim).mp hh with h | h
    · exact hvk h
    · rw [mapHas_mapDelete] at h
      exact h.1 rfl
  · intro k'
    rw [hcache, mapHas_mapSet, mapHas_mapDelete]
    constructor
    · rintro (rfl | ⟨hne, hhas⟩)
      · exact Or.inl rfl
      · exact Or.inr ⟨hhas, hne⟩
    · rintro (rfl | ⟨hhas, hne⟩)
      · exact Or.inl rfl
      · exact Or.inr ⟨hne, hhas⟩

theorem set_capacity_step (o : CacheOptions)
    (hstrat : o.strategy = "lru" ∨ o.strategy = "fifo") (hmax : 1 ≤ o.maxSize)
    (s : CacheState) (hinv : AccessInv s) (hle : mapSize s.cache ≤ o.maxSize)
    (now : Nat) (key : String) (v : JsValue) (ct : Option Nat) :
    mapSize (CacheManager.set o s now key v ct).2.cache ≤ o.maxSize := by
  by_cases hc : mapSize s.cache ≥ o.maxSize ∧ mapHas s.cache key = false
  · have hfull : mapSize s.cache = o.maxSize := le_antisymm hle hc.1
    obtain ⟨victim, hv, hvhas, hevi, hsize, hrest⟩ :=
      set_evicts_one o hstrat hmax s hinv hfull key hc.2 now v ct
    omega
  · have hsnd := set_snd_no_evict o s now key v ct hc
    have hcache : (CacheManager.set o s now key v ct).2.cache =
        mapSet s.cache key ⟨v, now, now, mkExpiresAt now (jsOr ct o.ttl)⟩ := by
      rw [hsnd]
    rw [hcache]
    rcases hhas : mapHas s.cache key with _ | _
    · have hlt : ¬ mapSize s.cache ≥ o.maxSize := fun hge => hc ⟨hge, hhas⟩
      have := length_mapSet_of_not_has s.cache key
        ⟨v, now, now, mkExpiresAt now (jsOr ct o.ttl)⟩ hhas
      simp only [mapSize] at hle hlt ⊢
      omega
    · have := length_mapSet_of_has s.cache key
        ⟨v, now, now, mkExpiresAt now (jsOr ct o.ttl)⟩ hhas
      simp only [mapSize] at hle ⊢
      omega

theorem setCalls_capacity (o : CacheOptions)
    (hstrat : o.strategy = "lru" ∨ o.strategy = "fifo") (hmax : 1 ≤ o.maxSize) :
    ∀ (calls : List (Nat × String × JsValue × Option Nat)) (s : CacheState),
      AccessInv s → mapSize s.cache ≤ o.maxSize →
      AccessInv ((setCallsToOps calls).foldl (applyOp o) s) ∧
        mapSize ((setCallsToOps calls).foldl (applyOp o) s).cache ≤ o.maxSize
  | [], _, hinv, hle => ⟨hinv, hle⟩
  | c :: rest, s, hinv, hle => by
    have h1 : AccessInv (CacheManager.set o s c.1 c.2.1 c.2.2.1 c.2.2.2).2 :=
      accessInv_set o s c.1 c.2.1 c.2.2.1 c.2.2.2 hinv
    have h2 := set_capacity_step o hstrat hmax s hinv hle c.1 c.2.1 c.2.2.1 c.2.2.2
    exact setCalls_capacity o hstrat hmax rest _ h1 h2

/-! ### Characterization of get, set and getOrSet outcomes -/

theorem cache_recordMiss (o : CacheOptions) (s : CacheState) (k : String) :
    (recordMiss o s k).cache = s.cache := by
  unfold recordMiss
  split <;> rfl

theorem cache_recordHit (o : CacheOptions) (s : CacheState) (k : String) :
    (recordHit o s k).cache = s.cache := by
  unfold recordHit
  split <;> rfl

theorem hits_recordHit_of_metrics (o : CacheOptions) (s : CacheState) (k : String)
    (h : o.enableMetrics = true) : (recordHit o s k).hits = s.hits + 1 := by
  unfold recordHit
  rw [if_pos h]
  rfl

theorem set_stores_entry (o : CacheOptions) (s : CacheState) (now : Nat) (key : String)
    (v : JsValue) (ct : Option Nat) :
    mapGet (CacheManager.set o s now key v ct).2.cache key =
      some ⟨v, now, now, mkExpiresAt now (jsOr ct o.ttl)⟩ := by
  by_cases hc : mapSize s.cache ≥ o.maxSize ∧ mapHas s.cache key = false
  · rw [set_snd_of_evict o s now key v ct hc]
    exact mapGet_mapSet_self _ key _
  · rw [set_snd_no_evict o s now key v ct hc]
    exact mapGet_mapSet_self _ key _

theorem get_miss_eq (o : CacheOptions) (s : CacheState) (now : Nat) (key : String)
    (habs : mapGet s.cache key = none) :
    CacheManager.get o s now key = (JsValue.vnull, recordMiss o s key) := by
  unfold CacheManager.get
  rw [habs]

theorem get_hit_eq (o : CacheOptions) (s : CacheState) (now : Nat) (key : String)
    (e : CacheEntry) (hm : mapGet s.cache key = some e) (he : isExpired e now = false) :
    CacheManager.get o s now key =
      (e.value,
       recordHit o
         { s with
           cache := mapSet s.cache key { e with lastAccessed := now }
           accessOrder := updateAccessOrder s.accessOrder key } key) := by
  unfold CacheManager.get
  rw [hm]
  simp only [he, Bool.false_eq_true, if_false]

theorem get_expired_eq (o : CacheOptions) (s : CacheState) (now : Nat) (key : String)
    (e : CacheEntry) (hm : mapGet s.cache key = some e) (he : isExpired e now = true) :
    CacheManager.get o s now key =
      (JsValue.vnull,
       emit
         (recordMiss o
           { s with
             cache := mapDelete s.cache key
             accessOrder := removeFromAccessOrder s.accessOrder key } key)
         (CacheEvent.expired key)) := by
  unfold CacheManager.get
  rw [hm]
  simp only [he, if_true]

theorem get_cache_subset (o : CacheOptions) (s : CacheState) (now : Nat) (key k' : String) :
    mapHas (CacheManager.get o s now key).2.cache k' = true → mapHas s.cache k' = true := by
  intro h
  cases hm : mapGet s.cache key with
  | none =>
    rw [get_miss_eq o s now key hm] at h
    rw [cache_recordMiss] at h
    exact h
  | some e =>
    by_cases he : isExpired e now = true
    · rw [get_expired_eq o s now key e hm he] at h
      rw [show (emit (recordMiss o
          { s with
            cache := mapDelete s.cache key
            accessOrder := removeFromAccessOrder s.accessOrder key } key)
          (CacheEvent.expired key)).cache = mapDelete s.cache key from by
        rw [show (emit (recordMiss o
            { s with
              cache := mapDelete s.cache key
              accessOrder := removeFromAccessOrder s.accessOrder key } key)
            (CacheEvent.expired key)).cache = (recordMiss o
            { s with
              cache := mapDelete s.cache key
              accessOrder := removeFromAccessOrder s.accessOrder key } key).cache from rfl]
        rw [cache_recordMiss]] at h
      exact ((mapHas_mapDelete s.cache key k').mp h).2
    · have he' : isExpired e now = false := by
        rcases hh : isExpired e now with _ | _
        · rfl
        · exact absurd hh he
      rw [get_hit_eq o s now key e hm he'] at h
      rw [cache_recordHit] at h
      rcases (mapHas_mapSet s.cache key _ k').mp h with rfl | hh
      · unfold mapHas
        rw [hm]
        rfl
      · exact hh

theorem getOrSetResume_error (o : CacheOptions) (s : CacheState) (now : Nat)
    (key : String) (msg : String) (ct : Option Nat) :
    getOrSetResume o s now key JsValue.vnull (Except.error msg) ct =
      (Except.error msg,
       emit { s with errors := s.errors + 1 } (CacheEvent.factoryError key), 1) := by
  unfold getOrSetResume
  simp

theorem getOrSetResume_ok (o : CacheOptions) (s : CacheState) (now : Nat)
    (key : String) (w : JsValue) (ct : Option Nat) :
    getOrSetResume o s now key JsValue.vnull (Except.ok w) ct =
      (Except.ok w, (CacheManager.set o s now key w ct).2, 1) := by
  unfold getOrSetResume
  simp

theorem getOrSet_error_eq (o : CacheOptions) (s : CacheState) (now : Nat) (key : String)
    (msg : String) (ct : Option Nat)
    (hmiss : (CacheManager.get o s now key).1 = JsValue.vnull) :
    CacheManager.getOrSet o s now key (Except.error msg) ct =
      (Except.error msg,
       emit
         { (CacheManager.get o s now key).2 with
           errors := (CacheManager.get o s now key).2.errors + 1 }
         (CacheEvent.factoryError key),
       1) := by
  show getOrSetResume o (CacheManager.get o s now key).2 now key
      (CacheManager.get o s now key).1 (Except.error msg) ct =
    (Except.error msg,
     emit
       { (CacheManager.get o s now key).2 with
         errors := (CacheManager.get o s now key).2.errors + 1 }
       (CacheEvent.factoryError key),
     1)
  rw [hmiss, getOrSetResume_error]

theorem getOrSet_ok_eq (o : CacheOptions) (s : CacheState) (now : Nat) (key : String)
    (w : JsValue) (ct : Option Nat)
    (hmiss : (CacheManager.get o s now key).1 = JsValue.vnull) :
    CacheManager.getOrSet o s now key (Except.ok w) ct =
      (Except.ok w, (CacheManager.set o (CacheManager.get o s now key).2 now key w ct).2, 1) := by
  show getOrSetResume o (CacheManager.get o s now key).2 now key
      (CacheManager.get o s now key).1 (Except.ok w) ct =
    (Except.ok w, (CacheManager.set o (CacheManager.get o s now key).2 now key w ct).2, 1)
  rw [hmiss, getOrSetResume_ok]

/-! ### Claim theorems -/

/-- C2: for a cache configured with the recency ("lru") or insertion-order
("fifo") strategy and a positive maxSize, every sequence of set calls keeps
the entry count at most maxSize after each call; and a set that would insert
the (maxSize + 1)-th distinct key (map full, key new) evicts exactly one
entry — the one selected by the configured strategy — before the insertion
completes: the eviction counter rises by one, the victim's key is gone, and
the final key set is the old one minus the victim plus the new key. -/
theorem set_respects_capacity (o : CacheOptions)
    (hstrat : o.strategy = "lru" ∨ o.strategy = "fifo") (hmax : 1 ≤ o.maxSize) :
    (∀ calls : List (Nat × String × JsValue × Option Nat),
      mapSize (runOps o (setCallsToOps calls)).cache ≤ o.maxSize) ∧
    (∀ (s : CacheState) (now : Nat) (key : String) (v : JsValue) (ct : Option Nat),
      AccessInv s → mapSize s.cache ≤ o.maxSize →
      mapSize (CacheManager.set o s now key v ct).2.cache ≤ o.maxSize ∧
      (mapSize s.cache = o.maxSize → mapHas s.cache key = false →
        ∃ victim, strategyVictim o s = some victim ∧
          (CacheManager.set o s now key v ct).2.evictions = s.evictions + 1 ∧
          mapHas (CacheManager.set o s now key v ct).2.cache victim = false ∧
          (∀ k', mapHas (CacheManager.set o s now key v ct).2.cache k' = true ↔
            (k' = key ∨ (mapHas s.cache k' = true ∧ k' ≠ victim))))) := by
  constructor
  · intro calls
    exact (setCalls_capacity o hstrat hmax calls initState accessInv_initState
      (Nat.zero_le o.maxSize)).2
  · intro s now key v ct hinv hle
    refine ⟨set_capacity_step o hstrat hmax s hinv hle now key v ct, ?_⟩
    intro hfull hnew
    obtain ⟨victim, h1, h2, h3, h4, h5, h6⟩ :=
      set_evicts_one o hstrat hmax s hinv hfull key hnew now v ct
    exact ⟨victim, h1, h3, h5, h6⟩

/-- Witness for set_respects_capacity: on a fresh lru cache with maxSize 2,
three distinct sets leave at most two entries, and the third set on the full
cache evicts exactly one entry. -/
theorem set_respects_capacity_witness :
    mapSize (runOps lruOptions2 (setCallsToOps
      [(0, "a", JsValue.vnat 1, none), (1, "b", JsValue.vnat 2, none),
       (2, "c", JsValue.vnat 3, none)])).cache ≤ lruOptions2.maxSize :=
  (set_respects_capacity lruOptions2 (Or.inl rfl) (by decide)).1
    [(0, "a", JsValue.vnat 1, none), (1, "b", JsValue.vnat 2, none),
     (2, "c", JsValue.vnat 3, none)]

/-- C8: after every sequence of public operations from a fresh cache, the
access order holds exactly the key set of the entry map with no duplicates,
so its length equals the map's size; and immediately after a set of a key, or
after a get of that key that hits (entry present and live), the key occupies
the tail of the access order. -/
theorem accessOrder_matches_entries (o : CacheOptions) :
    (∀ ops : List CacheOp,
      (runOps o ops).accessOrder.Nodup ∧
      (∀ k, k ∈ (runOps o ops).accessOrder ↔ mapHas (runOps o ops).cache k = true) ∧
      (runOps o ops).accessOrder.length = mapSize (runOps o ops).cache) ∧
    (∀ (s : CacheState) (now : Nat) (key : String) (v : JsValue) (ct : Option Nat),
      (CacheManager.set o s now key v ct).2.accessOrder.getLast? = some key) ∧
    (∀ (s : CacheState) (now : Nat) (key : String) (e : CacheEntry),
      mapGet s.cache key = some e → isExpired e now = false →
      (CacheManager.get o s now key).2.accessOrder.getLast? = some key) := by
  refine ⟨?_, ?_, ?_⟩
  · intro ops
    obtain ⟨h1, h2, h3, h4⟩ := accessInv_runOps o ops
    exact ⟨h1, h3, h4⟩
  · intro s now key v ct
    by_cases hc : mapSize s.cache ≥ o.maxSize ∧ mapHas s.cache key = false
    · rw [set_snd_of_evict o s now key v ct hc]
      exact getLast?_updateAccessOrder _ key
    · rw [set_snd_no_evict o s now key v ct hc]
      exact getLast?_updateAccessOrder _ key
  · intro s now key e hm he
    rw [get_hit_eq o s now key e hm he]
    show (recordHit o _ key).accessOrder.getLast? = some key
    unfold recordHit
    split
    · exact getLast?_updateAccessOrder _ key
    · exact getLast?_updateAccessOrder _ key

/-- Witness for accessOrder_matches_entries: a freshly read key sits at the
tail of the access order. -/
theorem accessOrder_matches_entries_witness :
    (CacheManager.get defaultOptions
      (CacheManager.set defaultOptions initState 0 "k" (JsValue.vnat 1) none).2
      1 "k").2.accessOrder.getLast? = some "k" :=
  (accessOrder_matches_entries defaultOptions).2.2 _ 1 "k"
    ⟨JsValue.vnat 1, 0, 0, none⟩ (by decide) (by decide)

/-- C9: clear removes every entry and empties the access order (size is 0
afterwards), emits a clear event carrying the number of entries removed (0 on
an already-empty cache), and leaves the hits, misses, sets, evictions and
errors counters unchanged. -/
theorem clear_frame (s : CacheState) :
    (CacheManager.clear s).cache = [] ∧
    (CacheManager.clear s).accessOrder = [] ∧
    mapSize (CacheManager.clear s).cache = 0 ∧
    (CacheManager.clear s).events = s.events ++ [CacheEvent.clear (mapSize s.cache)] ∧
    (CacheManager.clear s).hits = s.hits ∧
    (CacheManager.clear s).misses = s.misses ∧
    (CacheManager.clear s).sets = s.sets ∧
    (CacheManager.clear s).evictions = s.evictions ∧
    (CacheManager.clear s).errors = s.errors ∧
    (s.cache = [] → (CacheManager.clear s).events = s.events ++ [CacheEvent.clear 0]) := by
  refine ⟨rfl, rfl, rfl, rfl, rfl, rfl, rfl, rfl, rfl, ?_⟩
  intro h
  show s.events ++ [CacheEvent.clear (mapSize s.cache)] = s.events ++ [CacheEvent.clear 0]
  rw [h]
  rfl

/-- Witness for clear_frame: clearing an empty cache emits a clear event
carrying 0. -/
theorem clear_frame_witness :
    (CacheManager.clear initState).events = initState.events ++ [CacheEvent.clear 0] :=
  (clear_frame initState).2.2.2.2.2.2.2.2.2 rfl

/-- C4 counterexample: constructing a cache with the unrecognized strategy
"size" does not fail fast — the instance stores the strategy verbatim and
operates: two sets on a maxSize-1 cache grow it to 2 entries with zero
evictions, zero errors and no error event, so no configuration error is ever
raised. -/
theorem invalid_strategy_counterexample :
    (CacheManager.new sizeStrategyOptions).1.strategy = "size" ∧
    mapSize (runOps sizeStrategyOptions (setCallsToOps
      [(0, "a", JsValue.vnat 1, none), (1, "b", JsValue.vnat 2, none)])).cache = 2 ∧
    sizeStrategyOptions.maxSize = 1 ∧
    (runOps sizeStrategyOptions (setCallsToOps
      [(0, "a", JsValue.vnat 1, none), (1, "b", JsValue.vnat 2, none)])).evictions = 0 ∧
    (runOps sizeStrategyOptions (setCallsToOps
      [(0, "a", JsValue.vnat 1, none), (1, "b", JsValue.vnat 2, none)])).errors = 0 ∧
    (runOps sizeStrategyOptions (setCallsToOps
      [(0, "a", JsValue.vnat 1, none), (1, "b", JsValue.vnat 2, none)])).events =
      [CacheEvent.set "a" 1, CacheEvent.set "b" 2] ∧
    (∀ k, ¬ CacheEvent.error k ∈ [CacheEvent.set "a" 1, CacheEvent.set "b" 2]) := by
  refine ⟨rfl, by decide, rfl, by decide, by decide, by decide, ?_⟩
  intro k
  simp

/-- C4 amended: the constructor performs no strategy validation — any strategy
string is accepted and stored verbatim (a default is never substituted), and
under a strategy other than "lru" and "fifo" the eviction routine removes
nothing at all, leaving the state untouched. -/
theorem invalid_strategy_accepted (opts : CacheOptions) (s : CacheState) (n : Nat)
    (h1 : opts.strategy ≠ "lru") (h2 : opts.strategy ≠ "fifo") :
    (CacheManager.new opts).1 = opts ∧ CacheManager.evictItems opts s n = s := by
  refine ⟨rfl, ?_⟩
  unfold CacheManager.evictItems
  rw [if_neg h1, if_neg h2]
  rfl

/-- Witness for invalid_strategy_accepted at the concrete "size" strategy. -/
theorem invalid_strategy_accepted_witness :
    (CacheManager.new sizeStrategyOptions).1 = sizeStrategyOptions ∧
    CacheManager.evictItems sizeStrategyOptions initState 1 = initState :=
  invalid_strategy_accepted sizeStrategyOptions initState 1 (by decide) (by decide)

/-- C5: from an empty maxSize-2 cache, the sequence set(a), set(b), get(a),
set(c) leaves exactly two entries, and the evicted key is determined by the
configured strategy: under "lru" (recency) b is evicted and a, c remain;
under "fifo" (insertion order) a is evicted despite the intervening read and
b, c remain — both with strictly increasing timestamps and with all-equal
timestamps, the createdAt tie being broken stably by insertion sequence. -/
theorem eviction_scenarios :
    (mapKeys (runOps lruOptions2
      [CacheOp.set 0 "a" (JsValue.vnat 1) none, CacheOp.set 1 "b" (JsValue.vnat 2) none,
       CacheOp.get 2 "a", CacheOp.set 3 "c" (JsValue.vnat 3) none]).cache = ["a", "c"] ∧
     mapSize (runOps lruOptions2
      [CacheOp.set 0 "a" (JsValue.vnat 1) none, CacheOp.set 1 "b" (JsValue.vnat 2) none,
       CacheOp.get 2 "a", CacheOp.set 3 "c" (JsValue.vnat 3) none]).cache = 2 ∧
     CacheEvent.evict "b" ∈ (runOps lruOptions2
      [CacheOp.set 0 "a" (JsValue.vnat 1) none, CacheOp.set 1 "b" (JsValue.vnat 2) none,
       CacheOp.get 2 "a", CacheOp.set 3 "c" (JsValue.vnat 3) none]).events) ∧
    (mapKeys (runOps fifoOptions2
      [CacheOp.set 0 "a" (JsValue.vnat 1) none, CacheOp.set 1 "b" (JsValue.vnat 2) none,
       CacheOp.get 2 "a", CacheOp.set 3 "c" (JsValue.vnat 3) none]).cache = ["b", "c"] ∧
     mapSize (runOps fifoOptions2
      [CacheOp.set 0 "a" (JsValue.vnat 1) none, CacheOp.set 1 "b" (JsValue.vnat 2) none,
       CacheOp.get 2 "a", CacheOp.set 3 "c" (JsValue.vnat 3) none]).cache = 2 ∧
     CacheEvent.evict "a" ∈ (runOps fifoOptions2
      [CacheOp.set 0 "a" (JsValue.vnat 1) none, CacheOp.set 1 "b" (JsValue.vnat 2) none,
       CacheOp.get 2 "a", CacheOp.set 3 "c" (JsValue.vnat 3) none]).events) ∧
    (mapKeys (runOps fifoOptions2
      [CacheOp.set 5 "a" (JsValue.vnat 1) none, CacheOp.set 5 "b" (JsValue.vnat 2) none,
       CacheOp.get 5 "a", CacheOp.set 5 "c" (JsValue.vnat 3) none]).cache = ["b", "c"] ∧
     CacheEvent.evict "a" ∈ (runOps fifoOptions2
      [CacheOp.set 5 "a" (JsValue.vnat 1) none, CacheOp.set 5 "b" (JsValue.vnat 2) none,
       CacheOp.get 5 "a", CacheOp.set 5 "c" (JsValue.vnat 3) none]).events) := by
  decide

/-- C3 counterexample: set k with customTTL 10 at time 0, then get k at time
15 — the expired read emits a plain miss event (through the miss recording)
in addition to the expired event, so the claim that no plain miss event is
emitted fails. -/
theorem expired_get_counterexample :
    CacheEvent.miss "k" ∈ (CacheManager.get defaultOptions
      (CacheManager.set defaultOptions initState 0 "k" (JsValue.vnat 1) (some 10)).2
      15 "k").2.events ∧
    CacheEvent.expired "k" ∈ (CacheManager.get defaultOptions
      (CacheManager.set defaultOptions initState 0 "k" (JsValue.vnat 1) (some 10)).2
      15 "k").2.events := by
  decide

/-- C3 amended: with metrics enabled (the default), get of a present but
expired entry (current time strictly after expiresAt) removes the entry,
returns null, increments the misses counter, and emits a plain miss event
followed by an expired event. -/
theorem expired_get_removes_and_misses (o : CacheOptions) (s : CacheState) (now : Nat)
    (key : String) (e : CacheEntry) (hmet : o.enableMetrics = true)
    (hm : mapGet s.cache key = some e) (he : isExpired e now = true) :
    (CacheManager.get o s now key).1 = JsValue.vnull ∧
    mapGet (CacheManager.get o s now key).2.cache key = none ∧
    (CacheManager.get o s now key).2.misses = s.misses + 1 ∧
    (CacheManager.get o s now key).2.events =
      s.events ++ [CacheEvent.miss key, CacheEvent.expired key] := by
  rw [get_expired_eq o s now key e hm he]
  unfold recordMiss
  rw [if_pos hmet]
  refine ⟨rfl, ?_, rfl, ?_⟩
  · show mapGet (mapDelete s.cache key) key = none
    exact mapGet_mapDelete_self s.cache key
  · show (s.events ++ [CacheEvent.miss key]) ++ [CacheEvent.expired key] =
      s.events ++ [CacheEvent.miss key, CacheEvent.expired key]
    simp

/-- Witness for expired_get_removes_and_misses at the concrete expired entry. -/
theorem expired_get_removes_and_misses_witness :
    (CacheManager.get defaultOptions
      (CacheManager.set defaultOptions initState 0 "k" (JsValue.vnat 1) (some 10)).2
      15 "k").2.misses =
      (CacheManager.set defaultOptions initState 0 "k" (JsValue.vnat 1) (some 10)).2.misses + 1 :=
  (expired_get_removes_and_misses defaultOptions _ 15 "k" ⟨JsValue.vnat 1, 0, 0, some 10⟩
    rfl (by decide) (by decide)).2.2.1

/-- C6 counterexample: with cache-wide ttl 5, a set at time 100 supplying the
non-negative custom TTL 0 stores expiresAt = 105 (the zero custom TTL is
falsy in the expression customTTL || options.ttl and falls back to the
cache-wide ttl), not createdAt + customTTL = 100 as the claim requires. -/
theorem zero_customTTL_counterexample :
    (mapGet (CacheManager.set ⟨100, some 5, "lru", false, true⟩ initState 100 "k"
      (JsValue.vnat 1) (some 0)).2.cache "k").map CacheEntry.expiresAt =
      some (some 105) ∧
    ¬ ((mapGet (CacheManager.set ⟨100, some 5, "lru", false, true⟩ initState 100 "k"
      (JsValue.vnat 1) (some 0)).2.cache "k").map CacheEntry.expiresAt =
      some (some (100 + 0))) := by
  decide

/-- C6 amended: the stored entry's expiresAt equals createdAt + customTTL when
a positive custom TTL is supplied; when the custom TTL is absent or zero it
equals createdAt + ttl if the cache-wide ttl is positive and null otherwise;
and a subsequent hit leaves value, createdAt and expiresAt unchanged (only
lastAccessed is refreshed), so expiresAt is never renewed by a get. -/
theorem expiresAt_rule (o : CacheOptions) (s : CacheState) (now : Nat)
    (key : String) (v : JsValue) (ct : Option Nat) :
    (∀ t, ct = some t → 0 < t →
      mapGet (CacheManager.set o s now key v ct).2.cache key =
        some ⟨v, now, now, some (now + t)⟩) ∧
    ((ct = none ∨ ct = some 0) → ∀ u, o.ttl = some u → 0 < u →
      mapGet (CacheManager.set o s now key v ct).2.cache key =
        some ⟨v, now, now, some (now + u)⟩) ∧
    ((ct = none ∨ ct = some 0) → (o.ttl = none ∨ o.ttl = some 0) →
      mapGet (CacheManager.set o s now key v ct).2.cache key =
        some ⟨v, now, now, none⟩) ∧
    (∀ e : CacheEntry, mapGet s.cache key = some e → isExpired e now = false →
      mapGet (CacheManager.get o s now key).2.cache key =
        some { e with lastAccessed := now }) := by
  refine ⟨?_, ?_, ?_, ?_⟩
  · rintro t rfl ht
    rw [set_stores_entry]
    have hj : jsOr (some t) o.ttl = some t := by
      simp only [jsOr]
      rw [if_neg (by omega)]
    rw [hj]
    simp only [mkExpiresAt]
    rw [if_neg (by omega)]
  · rintro hct u httl hu
    rw [set_stores_entry]
    have hj : jsOr ct o.ttl = some u := by
      rcases hct with rfl | rfl
      · simp only [jsOr]
        exact httl
      · simp only [jsOr]
        simp [httl]
    rw [hj]
    simp only [mkExpiresAt]
    rw [if_neg (by omega)]
  · rintro hct httl
    rw [set_stores_entry]
    have hj : jsOr ct o.ttl = o.ttl := by
      rcases hct with rfl | rfl
      · rfl
      · simp only [jsOr]
        simp
    rw [hj]
    rcases httl with h | h <;> rw [h]
    · rfl
    · simp [mkExpiresAt]
  · intro e hm he
    rw [get_hit_eq o s now key e hm he]
    show mapGet (recordHit o _ key).cache key = _
    rw [cache_recordHit]
    exact mapGet_mapSet_self s.cache key _

/-- Witness for expiresAt_rule, covering all four cases at concrete inputs. -/
theorem expiresAt_rule_witness :
    mapGet (CacheManager.set defaultOptions initState 7 "k" (JsValue.vnat 1)
      (some 3)).2.cache "k" = some ⟨JsValue.vnat 1, 7, 7, some 10⟩ ∧
    mapGet (CacheManager.set ⟨100, some 5, "lru", false, true⟩ initState 7 "k"
      (JsValue.vnat 1) (some 0)).2.cache "k" = some ⟨JsValue.vnat 1, 7, 7, some 12⟩ ∧
    mapGet (CacheManager.set defaultOptions initState 7 "k" (JsValue.vnat 1)
      none).2.cache "k" = some ⟨JsValue.vnat 1, 7, 7, none⟩ ∧
    mapGet (CacheManager.get defaultOptions
      (CacheManager.set defaultOptions initState 7 "k" (JsValue.vnat 1) (some 3)).2
      8 "k").2.cache "k" = some ⟨JsValue.vnat 1, 7, 8, some 10⟩ :=
  ⟨(expiresAt_rule defaultOptions initState 7 "k" (JsValue.vnat 1) (some 3)).1
      3 rfl (by decide),
   (expiresAt_rule ⟨100, some 5, "lru", false, true⟩ initState 7 "k" (JsValue.vnat 1)
      (some 0)).2.1 (Or.inr rfl) 5 rfl (by decide),
   (expiresAt_rule defaultOptions initState 7 "k" (JsValue.vnat 1) none).2.2.1
      (Or.inl rfl) (Or.inl rfl),
   (expiresAt_rule defaultOptions
      (CacheManager.set defaultOptions initState 7 "k" (JsValue.vnat 1) (some 3)).2
      8 "k" (JsValue.vnat 1) (some 3)).2.2.2
      ⟨JsValue.vnat 1, 7, 7, some 10⟩ (by decide) (by decide)⟩

/-- C7 counterexample: with an expired entry present for k, a getOrSet whose
factory fails still removes that entry (through the embedded get), so the
entry mapping is changed by the failed call, contradicting the claim that it
is unchanged. -/
theorem getOrSet_failure_counterexample :
    mapHas (CacheManager.set defaultOptions initState 0 "k" (JsValue.vnat 1)
      (some 10)).2.cache "k" = true ∧
    (CacheManager.getOrSet defaultOptions
      (CacheManager.set defaultOptions initState 0 "k" (JsValue.vnat 1) (some 10)).2
      15 "k" (Except.error "boom") none).1 = Except.error "boom" ∧
    mapHas (CacheManager.getOrSet defaultOptions
      (CacheManager.set defaultOptions initState 0 "k" (JsValue.vnat 1) (some 10)).2
      15 "k" (Except.error "boom") none).2.1.cache "k" = false := by
  refine ⟨by decide, ?_, by decide⟩
  rfl

/-- C7 amended: when the factory is invoked (the embedded get returned null)
and fails, getOrSet propagates exactly the same failure, stores nothing — the
cache afterwards is exactly what the embedded lookup left, so no key gains an
entry, though an expired entry for the key may have been removed — increments
the errors counter, and emits a factory_error event for the key. -/
theorem getOrSet_factory_failure (o : CacheOptions) (s : CacheState) (now : Nat)
    (key msg : String) (ct : Option Nat)
    (hmiss : (CacheManager.get o s now key).1 = JsValue.vnull) :
    (CacheManager.getOrSet o s now key (Except.error msg) ct).1 = Except.error msg ∧
    (CacheManager.getOrSet o s now key (Except.error msg) ct).2.1.cache =
      (CacheManager.get o s now key).2.cache ∧
    (∀ k', mapHas (CacheManager.getOrSet o s now key (Except.error msg) ct).2.1.cache k' = true →
      mapHas s.cache k' = true) ∧
    (CacheManager.getOrSet o s now key (Except.error msg) ct).2.1.errors =
      (CacheManager.get o s now key).2.errors + 1 ∧
    CacheEvent.factoryError key ∈
      (CacheManager.getOrSet o s now key (Except.error msg) ct).2.1.events := by
  rw [getOrSet_error_eq o s now key msg ct hmiss]
  refine ⟨rfl, rfl, ?_, rfl, ?_⟩
  · intro k' h
    exact get_cache_subset o s now key k' h
  · show CacheEvent.factoryError key ∈
      (CacheManager.get o s now key).2.events ++ [CacheEvent.factoryError key]
    simp

/-- Witness for getOrSet_factory_failure on a fresh cache. -/
theorem getOrSet_factory_failure_witness :
    (CacheManager.getOrSet defaultOptions initState 0 "w" (Except.error "oops") none).1 =
      Except.error "oops" :=
  (getOrSet_factory_failure defaultOptions initState 0 "w" "oops" none rfl).1

/-- C10: for a live entry whose stored value is null, get returns null — the
same value returned for an absent key, so the two are indistinguishable by
the returned value — while recording a hit (with metrics enabled); and a
getOrSet for that key invokes the factory again (one invocation despite the
live entry) and overwrites the entry with the factory's value. -/
theorem null_value_hit (o : CacheOptions) (s : CacheState) (now : Nat) (key : String)
    (e : CacheEntry) (w : JsValue) (ct : Option Nat)
    (hm : mapGet s.cache key = some e) (he : isExpired e now = false)
    (hv : e.value = JsValue.vnull) (hmet : o.enableMetrics = true) :
    (CacheManager.get o s now key).1 = JsValue.vnull ∧
    (CacheManager.get o s now key).1 = (CacheManager.get o initState now key).1 ∧
    (CacheManager.get o s now key).2.hits = s.hits + 1 ∧
    (CacheManager.getOrSet o s now key (Except.ok w) ct).2.2 = 1 ∧
    (mapGet (CacheManager.getOrSet o s now key (Except.ok w) ct).2.1.cache key).map
      CacheEntry.value = some w := by
  have hfst : (CacheManager.get o s now key).1 = JsValue.vnull := by
    rw [get_hit_eq o s now key e hm he]
    exact hv
  refine ⟨hfst, ?_, ?_, ?_, ?_⟩
  · rw [hfst]
    rfl
  · rw [get_hit_eq o s now key e hm he]
    exact hits_recordHit_of_metrics o _ key hmet
  · rw [getOrSet_ok_eq o s now key w ct hfst]
  · rw [getOrSet_ok_eq o s now key w ct hfst]
    show (mapGet (CacheManager.set o (CacheManager.get o s now key).2 now key
      w ct).2.cache key).map CacheEntry.value = some w
    rw [set_stores_entry]
    rfl

/-- Witness for null_value_hit: a stored null value makes getOrSet invoke the
factory despite the live entry. -/
theorem null_value_hit_witness :
    (CacheManager.getOrSet defaultOptions
      (CacheManager.set defaultOptions initState 0 "k" JsValue.vnull none).2
      1 "k" (Except.ok (JsValue.vnat 4)) none).2.2 = 1 :=
  (null_value_hit defaultOptions _ 1 "k" ⟨JsValue.vnull, 0, 0, none⟩ (JsValue.vnat 4)
    none (by decide) (by decide) rfl rfl).2.2.2.1

/-- C1 counterexample: two concurrent getOrSet calls for the absent key k on a
fresh cache — both lookups run before either factory result is stored, as the
event loop schedules them — invoke the factory twice, not exactly once as
claimed. -/
theorem concurrent_getOrSet_counterexample :
    (twoConcurrentGetOrSet defaultOptions initState 0 "k"
      (Except.ok (JsValue.vnat 7)) none).2.2 = 2 ∧
    ¬ ((twoConcurrentGetOrSet defaultOptions initState 0 "k"
      (Except.ok (JsValue.vnat 7)) none).2.2 = 1) := by
  decide

/-- C1 amended: with the key absent and an asynchronous factory, two
concurrent getOrSet callers each miss before either result is stored, so the
factory is invoked once per caller — twice in total, not once; each caller
returns the value produced by its own invocation, and the key ends up mapped
to the factory's value. -/
theorem concurrent_getOrSet_duplicates_factory (o : CacheOptions) (s : CacheState)
    (now : Nat) (key : String) (w : JsValue) (ct : Option Nat)
    (habs : mapGet s.cache key = none) :
    (twoConcurrentGetOrSet o s now key (Except.ok w) ct).2.2 = 2 ∧
    (twoConcurrentGetOrSet o s now key (Except.ok w) ct).1 =
      (Except.ok w, Except.ok w) ∧
    (mapGet (twoConcurrentGetOrSet o s now key (Except.ok w) ct).2.1.cache key).map
      CacheEntry.value = some w := by
  have h1 : CacheManager.get o s now key = (JsValue.vnull, recordMiss o s key) :=
    get_miss_eq o s now key habs
  have habs2 : mapGet (recordMiss o s key).cache key = none := by
    rw [cache_recordMiss]
    exact habs
  have h2 : CacheManager.get o (recordMiss o s key) now key =
      (JsValue.vnull, recordMiss o (recordMiss o s key) key) :=
    get_miss_eq o _ now key habs2
  have hrun : twoConcurrentGetOrSet o s now key (Except.ok w) ct =
      ((Except.ok w, Except.ok w),
       (CacheManager.set o
          (CacheManager.set o (recordMiss o (recordMiss o s key) key) now key w ct).2
          now key w ct).2,
       2) := by
    simp only [twoConcurrentGetOrSet, h1, h2, getOrSetResume_ok]
  rw [hrun]
  refine ⟨rfl, rfl, ?_⟩
  show (mapGet (CacheManager.set o
      (CacheManager.set o (recordMiss o (recordMiss o s key) key) now key w ct).2
      now key w ct).2.cache key).map CacheEntry.value = some w
  rw [set_stores_entry]
  rfl

/-- Witness for concurrent_getOrSet_duplicates_factory on a fresh cache. -/
theorem concurrent_getOrSet_duplicates_factory_witness :
    (twoConcurrentGetOrSet defaultOptions initState 3 "q"
      (Except.ok (JsValue.vnat 9)) none).2.2 = 2 :=
  (concurrent_getOrSet_duplicates_factory defaultOptions initState 3 "q"
    (JsValue.vnat 9) none rfl).1
